import Mathlib

/-!
# Verification of the javSpider crawler core

Shallow embedding of the repository's core algorithms:
* the candidate magnet-link scorer of the two spiders
  (`src/jav_scrapy/spiders/javdb_spider.py`, `javbus_spider.py`,
  helpers in `src/jav_scrapy/spiders/utils.py`),
* the duplicate-run early-stop state machine (`_is_duplicate_item`),
* the record builders (`_build_final_item`),
* the task URL resolver (`src/task/utils.py`, `src/task/manager.py`)
  together with the parts of `urllib.parse` it relies on.

Python floats are modelled as rationals, CSS/soup element access is
modelled by structures holding exactly the values the code reads, and
Python exceptions that the code catches are modelled with `Option`.
-/

namespace JavSpider

/-! ## Python string primitives -/

/-- Characters treated as whitespace by Python `str.strip` / the regex
class `\s` (ASCII part, which is all the crawler ever meets). -/
def pySpace (c : Char) : Bool :=
  c = ' ' || c = '\t' || c = '\n' || c = '\r' || c = '\x0b' || c = '\x0c'

/-- Python `str.strip()` on a character list. -/
def stripL (l : List Char) : List Char :=
  ((l.dropWhile pySpace).reverse.dropWhile pySpace).reverse

/-- Python `str.strip()`. -/
def pyStrip (s : String) : String := (stripL s.toList).asString

/-- Boolean "is a leading segment of" test on lists. -/
def isPrefixB : List Char → List Char → Bool
  | [], _ => true
  | _ :: _, [] => false
  | a :: as, b :: bs => a == b && isPrefixB as bs

/-- Python substring test `pat in l` (contiguous occurrence). -/
def containsSeq : List Char → List Char → Bool
  | [], pat => pat.isEmpty
  | c :: t, pat => isPrefixB pat (c :: t) || containsSeq t pat

/-- Python `pat in s` on strings. -/
def strContains (s pat : String) : Bool := containsSeq s.toList pat.toList

/-- Python `s.startswith(p)`. -/
def pyStartsWith (s p : String) : Bool := isPrefixB p.toList s.toList

/-! ## `_parse_size` (src/jav_scrapy/spiders/utils.py)

The regex is `([\d.]+)\s*(GB|MB)` with `re.IGNORECASE` and `re.search`:
the character classes of the three parts are disjoint, so the greedy
left-to-right scan below matches Python's leftmost-match semantics
exactly. -/

def isDigitOrDot (c : Char) : Bool := c.isDigit || c == '.'

/-- Value of a digit run (used on regex-matched `[\d.]+` pieces with the
dots split off). -/
def digitsVal (l : List Char) : ℕ :=
  l.foldl (fun a c => a * 10 + (c.toNat - 48)) 0

/-- Python `float(...)` applied to a string drawn from the class `[\d.]+`:
at most one dot and at least one digit, otherwise `ValueError` (`none`). -/
def pyFloatDigits (l : List Char) : Option ℚ :=
  let ip := l.takeWhile (fun c => c != '.')
  let fp := (l.dropWhile (fun c => c != '.')).drop 1
  if l.count '.' ≤ 1 ∧ (l.filter Char.isDigit) ≠ [] then
    some ((digitsVal ip : ℚ) + (digitsVal fp : ℚ) / (10 : ℚ) ^ fp.length)
  else none

/-- Attempt the size regex anchored at the head of `l`:
`[\d.]+` (greedy), then `\s*`, then `GB`/`MB` case-insensitively.
Returns the first capture group and whether the unit was GB. -/
def matchSizeAt (l : List Char) : Option (List Char × Bool) :=
  let digits := l.takeWhile isDigitOrDot
  if digits.isEmpty then none
  else
    match (l.drop digits.length).dropWhile pySpace with
    | c1 :: c2 :: _ =>
      if (c1 == 'G' || c1 == 'g') && (c2 == 'B' || c2 == 'b') then some (digits, true)
      else if (c1 == 'M' || c1 == 'm') && (c2 == 'B' || c2 == 'b') then some (digits, false)
      else none
    | _ => none

/-- `re.search` for the size pattern: leftmost match. -/
def searchSize : List Char → Option (List Char × Bool)
  | [] => none
  | c :: t =>
    match matchSizeAt (c :: t) with
    | some r => some r
    | none => searchSize t

/-- `_parse_size`: size text to MB.  `none` models the `ValueError` that
`float` raises on captures such as `"1.2.3"` and that escapes
`_parse_size` into the caller's `try`/`except`. -/
def parse_size (text : String) : Option ℚ :=
  if text = "" then some 0
  else
    match searchSize text.toList with
    | none => some 0
    | some (g1, isGB) => (pyFloatDigits g1).map (fun v => if isGB then v * 1024 else v)

/-! ## Rounding

Python `round(x, 2)` (round-half-to-even on the rational model). -/

def roundHalfEven (q : ℚ) : ℤ :=
  let f := ⌊q⌋
  let r := q - f
  if r < 1/2 then f
  else if 1/2 < r then f + 1
  else if 2 ∣ f then f else f + 1

def roundTo2 (q : ℚ) : ℚ := (roundHalfEven (q * 100) : ℚ) / 100

/-! ## Magnet candidates

A parsed magnet candidate, as produced by `_parse_magnet_element` on
either spider (the javbus variant leaves `metaText` at its default). -/

structure MagnetData where
  url : String
  size : ℚ
  tags : List String
  metaText : String := ""
  hasChineseSub : Bool
deriving Repr, DecidableEq

/-- A raw javdb magnet element (`#magnets-content .item`), holding the
values `JavdbSpider._parse_magnet_element` and `_prefilter_magnets_javdb`
read from it:  the clipboard button attribute, the name-anchor href, the
`.meta` text, the `.tags .tag` texts, and whether `.tags .is-warning`
matches anything. -/
structure JavdbMagnetElem where
  clipboardText : Option String
  nameHref : Option String
  metaText : String
  tagTexts : List String
  hasWarningTag : Bool
deriving Repr, DecidableEq

/-- A raw javbus magnet row (a `<tr>` of the AJAX response), holding the
values `JavbusSpider._parse_magnet_element` and `_prefilter_magnets_javbus`
read from it.  `attrTags` models BeautifulSoup's `m.get("tags", [])`, the
HTML attribute named `tags` on the `<tr>` — absent (hence `[]`) on real
pages. -/
structure JavbusMagnetElem where
  aHref : Option String
  tds : List String
  btnTexts : List String
  attrTags : List String
deriving Repr, DecidableEq

/-- Python `a or b` on two optional strings (`""` is falsy). -/
def pyOrStr (a b : Option String) : Option String :=
  match a with
  | some s => if s = "" then b else some s
  | none => b

/-- `JavdbSpider._parse_magnet_element`.  `none` covers the explicit
`return None` branches and the `except` branch (a `ValueError` escaping
`_parse_size`). -/
def parse_magnet_element_javdb (e : JavdbMagnetElem) : Option MagnetData :=
  match pyOrStr e.clipboardText e.nameHref with
  | none => none
  | some u =>
    if u = "" || !pyStartsWith u "magnet:?" then none
    else
      let meta := pyStrip e.metaText
      match parse_size meta with
      | none => none
      | some size =>
        some { url := u, size := size, tags := e.tagTexts, metaText := meta,
               hasChineseSub := e.tagTexts.any (fun t => strContains t "字幕") }

/-- `JavbusSpider._parse_magnet_element`. -/
def parse_magnet_element_javbus (e : JavbusMagnetElem) : Option MagnetData :=
  match e.aHref with
  | none => none
  | some href =>
    let u := pyStrip href
    if !pyStartsWith u "magnet:?" then none
    else
      match parse_size (e.tds.getD 1 "") with
      | none => none
      | some size =>
        some { url := u, size := size, tags := e.btnTexts,
               hasChineseSub :=
                 e.btnTexts.any (fun t => strContains t "中字" || strContains t "字幕") }

/-- `_calculate_magnet_weight` as imported by the javdb spider
(`_calculate_magnet_weight_javdb` in utils.py). -/
def calculate_magnet_weight_javdb (d : MagnetData) : ℚ :=
  d.size + (if d.tags.any (fun t => strContains t "字幕") then 10000 else 0)

/-- `_calculate_magnet_weight_javbus`. -/
def calculate_magnet_weight_javbus (d : MagnetData) : ℚ :=
  d.size + (if d.tags.any (fun t => strContains t "字幕") then 10000 else 0)

/-- `_prefilter_magnets_javdb`. -/
def prefilter_magnets_javdb (magnets : List JavdbMagnetElem) (only_chinese : Bool) :
    List JavdbMagnetElem :=
  if !only_chinese then magnets
  else
    let chinese := magnets.filter (·.hasWarningTag)
    if chinese.isEmpty then magnets else chinese

/-- The tag test of `_prefilter_magnets_javbus` on one row. -/
def javbusAttrChinese (m : JavbusMagnetElem) : Bool :=
  m.attrTags.any (fun t => strContains t "中字" || strContains t "字幕")

/-- `_prefilter_magnets_javbus`. -/
def prefilter_magnets_javbus (magnets : List JavbusMagnetElem) (only_chinese : Bool) :
    List JavbusMagnetElem :=
  if !only_chinese then magnets
  else
    let chinese := magnets.filter javbusAttrChinese
    if chinese.isEmpty then magnets else chinese

/-- Loop state of the `get_best_magnet` scan on either spider. -/
structure BestState where
  best : String
  maxWeight : ℚ
  hasChineseSub : Bool
deriving Repr, DecidableEq

def initBest : BestState := ⟨"", 0, false⟩

/-- Loop body of `JavdbSpider.get_best_magnet`: replace iff
`weight > max_weight` (strict). -/
def best_step_javdb (s : BestState) (e : JavdbMagnetElem) : BestState :=
  match parse_magnet_element_javdb e with
  | none => s
  | some d =>
    let w := calculate_magnet_weight_javdb d
    if s.maxWeight < w then ⟨d.url, w, d.hasChineseSub⟩ else s

/-- Loop body of `JavbusSpider.get_best_magnet`: replace iff
`weight >= max_weight`. -/
def best_step_javbus (s : BestState) (e : JavbusMagnetElem) : BestState :=
  match parse_magnet_element_javbus e with
  | none => s
  | some d =>
    let w := calculate_magnet_weight_javbus d
    if s.maxWeight ≤ w then ⟨d.url, w, d.hasChineseSub⟩ else s

/-- `JavdbSpider.get_best_magnet`. -/
def get_best_magnet_javdb (magnets : List JavdbMagnetElem) (only_chinese : Bool) :
    String × ℚ × Bool :=
  let filtered := prefilter_magnets_javdb magnets only_chinese
  let s := filtered.foldl best_step_javdb initBest
  (s.best, roundTo2 s.maxWeight, s.hasChineseSub)

/-- `JavbusSpider.get_best_magnet` (including its early return on an
empty row set). -/
def get_best_magnet_javbus (magnets : List JavbusMagnetElem) (only_chinese : Bool) :
    String × ℚ × Bool :=
  if magnets.isEmpty then ("", 0, false)
  else
    let filtered := prefilter_magnets_javbus magnets only_chinese
    let s := filtered.foldl best_step_javbus initBest
    (s.best, roundTo2 s.maxWeight, s.hasChineseSub)

/-! ## Structural lemmas about the scorer loop -/

lemma best_step_javdb_cases (s : BestState) (e : JavdbMagnetElem) :
    best_step_javdb s e = s ∨
    ∃ d, parse_magnet_element_javdb e = some d ∧
      best_step_javdb s e = ⟨d.url, calculate_magnet_weight_javdb d, d.hasChineseSub⟩ := by
  unfold best_step_javdb
  cases h : parse_magnet_element_javdb e with
  | none => exact Or.inl rfl
  | some d =>
    by_cases hw : s.maxWeight < calculate_magnet_weight_javdb d
    · exact Or.inr ⟨d, rfl, by simp [hw]⟩
    · exact Or.inl (by simp [hw])

lemma best_step_javbus_cases (s : BestState) (e : JavbusMagnetElem) :
    best_step_javbus s e = s ∨
    ∃ d, parse_magnet_element_javbus e = some d ∧
      best_step_javbus s e = ⟨d.url, calculate_magnet_weight_javbus d, d.hasChineseSub⟩ := by
  unfold best_step_javbus
  cases h : parse_magnet_element_javbus e with
  | none => exact Or.inl rfl
  | some d =>
    by_cases hw : s.maxWeight ≤ calculate_magnet_weight_javbus d
    · exact Or.inr ⟨d, rfl, by simp [hw]⟩
    · exact Or.inl (by simp [hw])

/-- The scan either leaves the state untouched or ends on the data of
some element of the scanned list. -/
lemma foldl_best_cases {α : Type} (step : BestState → α → BestState)
    (parse : α → Option MagnetData) (wcalc : MagnetData → ℚ)
    (hstep : ∀ s e, step s e = s ∨
      ∃ d, parse e = some d ∧ step s e = ⟨d.url, wcalc d, d.hasChineseSub⟩) :
    ∀ (l : List α) (s : BestState),
      l.foldl step s = s ∨
      ∃ e ∈ l, ∃ d, parse e = some d ∧
        l.foldl step s = ⟨d.url, wcalc d, d.hasChineseSub⟩
  | [], s => Or.inl rfl
  | e :: t, s => by
    simp only [List.foldl_cons]
    rcases foldl_best_cases step parse wcalc hstep t (step s e) with h | ⟨e', he', d, hd, hres⟩
    · rw [h]
      rcases hstep s e with h2 | ⟨d, hd, h2⟩
      · exact Or.inl h2
      · exact Or.inr ⟨e, List.mem_cons_self e t, d, hd, h2⟩
    · exact Or.inr ⟨e', List.mem_cons_of_mem e he', d, hd, hres⟩

lemma foldl_max_mono {α : Type} (step : BestState → α → BestState)
    (hstep : ∀ s e, s.maxWeight ≤ (step s e).maxWeight) :
    ∀ (l : List α) (s : BestState), s.maxWeight ≤ (l.foldl step s).maxWeight
  | [], _ => le_refl _
  | e :: t, s =>
    le_trans (hstep s e) (foldl_max_mono step hstep t (step s e))

lemma foldl_max_ge {α : Type} (step : BestState → α → BestState)
    (parse : α → Option MagnetData) (wcalc : MagnetData → ℚ)
    (hmono : ∀ s e, s.maxWeight ≤ (step s e).maxWeight)
    (hge : ∀ s e d, parse e = some d → wcalc d ≤ (step s e).maxWeight) :
    ∀ (l : List α) (s : BestState) (e : α), e ∈ l →
      ∀ d, parse e = some d → wcalc d ≤ (l.foldl step s).maxWeight := by
  intro l
  induction l with
  | nil => intro s e he; cases he
  | cons a t ih =>
    intro s e he d hd
    simp only [List.foldl_cons]
    rcases List.mem_cons.mp he with rfl | ht
    · exact le_trans (hge s e d hd) (foldl_max_mono step hmono t (step s e))
    · exact ih (step s a) e ht d hd

lemma best_step_javdb_mono (s : BestState) (e : JavdbMagnetElem) :
    s.maxWeight ≤ (best_step_javdb s e).maxWeight := by
  unfold best_step_javdb
  cases parse_magnet_element_javdb e with
  | none => exact le_refl _
  | some d =>
    by_cases hw : s.maxWeight < calculate_magnet_weight_javdb d
    · simpa [hw] using le_of_lt hw
    · simp [hw]

lemma best_step_javdb_ge (s : BestState) (e : JavdbMagnetElem) (d : MagnetData)
    (h : parse_magnet_element_javdb e = some d) :
    calculate_magnet_weight_javdb d ≤ (best_step_javdb s e).maxWeight := by
  unfold best_step_javdb
  rw [h]
  by_cases hw : s.maxWeight < calculate_magnet_weight_javdb d
  · simp [hw]
  · simpa [hw] using le_of_not_lt hw

lemma best_step_javbus_mono (s : BestState) (e : JavbusMagnetElem) :
    s.maxWeight ≤ (best_step_javbus s e).maxWeight := by
  unfold best_step_javbus
  cases parse_magnet_element_javbus e with
  | none => exact le_refl _
  | some d =>
    by_cases hw : s.maxWeight ≤ calculate_magnet_weight_javbus d
    · simp [hw]
    · simp [hw]

lemma best_step_javbus_ge (s : BestState) (e : JavbusMagnetElem) (d : MagnetData)
    (h : parse_magnet_element_javbus e = some d) :
    calculate_magnet_weight_javbus d ≤ (best_step_javbus s e).maxWeight := by
  unfold best_step_javbus
  rw [h]
  by_cases hw : s.maxWeight ≤ calculate_magnet_weight_javbus d
  · simp [hw]
  · simpa [hw] using le_of_not_le hw

lemma mem_prefilter_javdb {e : JavdbMagnetElem} {magnets : List JavdbMagnetElem}
    {oc : Bool} (h : e ∈ prefilter_magnets_javdb magnets oc) : e ∈ magnets := by
  simp only [prefilter_magnets_javdb] at h
  split at h
  · exact h
  · split at h
    · exact h
    · exact (List.mem_filter.mp h).1

lemma mem_prefilter_javbus {e : JavbusMagnetElem} {magnets : List JavbusMagnetElem}
    {oc : Bool} (h : e ∈ prefilter_magnets_javbus magnets oc) : e ∈ magnets := by
  simp only [prefilter_magnets_javbus] at h
  split at h
  · exact h
  · split at h
    · exact h
    · exact (List.mem_filter.mp h).1

lemma roundTo2_zero : roundTo2 0 = 0 := by
  norm_num [roundTo2, roundHalfEven]

lemma pyFloatDigits_nonneg (l : List Char) (q : ℚ) (h : pyFloatDigits l = some q) :
    0 ≤ q := by
  unfold pyFloatDigits at h
  split at h
  · obtain rfl := Option.some.inj h
    positivity
  · cases h

lemma parse_size_nonneg (t : String) (q : ℚ) (h : parse_size t = some q) : 0 ≤ q := by
  unfold parse_size at h
  split at h
  · obtain rfl := Option.some.inj h
    exact le_refl 0
  · cases hs : searchSize t.toList with
    | none =>
      rw [hs] at h
      obtain rfl := Option.some.inj h
      exact le_refl 0
    | some r =>
      rw [hs] at h
      obtain ⟨g1, isGB⟩ := r
      obtain ⟨v, hv, rfl⟩ := Option.map_eq_some'.mp h
      have h0 := pyFloatDigits_nonneg g1 v hv
      split
      · positivity
      · exact h0

/-- What `JavdbSpider._parse_magnet_element` guarantees about its output. -/
lemma parse_javdb_spec (e : JavdbMagnetElem) (d : MagnetData)
    (h : parse_magnet_element_javdb e = some d) :
    d.tags = e.tagTexts ∧
    d.hasChineseSub = d.tags.any (fun t => strContains t "字幕") ∧
    0 ≤ d.size := by
  cases hc : pyOrStr e.clipboardText e.nameHref with
  | none => simp [parse_magnet_element_javdb, hc] at h
  | some u =>
    simp only [parse_magnet_element_javdb, hc] at h
    split at h
    · cases h
    · cases hs : parse_size (pyStrip e.metaText) with
      | none => rw [hs] at h; cases h
      | some size =>
        rw [hs] at h
        obtain rfl := Option.some.inj h
        exact ⟨rfl, rfl, parse_size_nonneg _ _ hs⟩

/-- What `JavbusSpider._parse_magnet_element` guarantees about its output. -/
lemma parse_javbus_spec (e : JavbusMagnetElem) (d : MagnetData)
    (h : parse_magnet_element_javbus e = some d) :
    d.tags = e.btnTexts ∧
    d.hasChineseSub = d.tags.any (fun t => strContains t "中字" || strContains t "字幕") ∧
    0 ≤ d.size := by
  cases hc : e.aHref with
  | none => simp [parse_magnet_element_javbus, hc] at h
  | some href =>
    simp only [parse_magnet_element_javbus, hc] at h
    split at h
    · cases h
    · cases hs : parse_size (e.tds.getD 1 "") with
      | none => rw [hs] at h; cases h
      | some size =>
        rw [hs] at h
        obtain rfl := Option.some.inj h
        exact ⟨rfl, rfl, parse_size_nonneg _ _ hs⟩

/-! ## C5: scorer soundness -/

/-- C5.  Scorer soundness: on either source, `get_best_magnet` returns an
empty best URL or the URL of a candidate parsed from the input list, with
the returned weight equal to that candidate's `size + boost` rounded to
two decimals and the returned flag equal to that candidate's
subtitle flag. -/
theorem scorer_soundness :
    (∀ (magnets : List JavdbMagnetElem) (oc : Bool),
      (get_best_magnet_javdb magnets oc).1 = "" ∨
      ∃ e ∈ magnets, ∃ d, parse_magnet_element_javdb e = some d ∧
        (get_best_magnet_javdb magnets oc).1 = d.url ∧
        (get_best_magnet_javdb magnets oc).2.1 = roundTo2 (calculate_magnet_weight_javdb d) ∧
        (get_best_magnet_javdb magnets oc).2.2 = d.hasChineseSub) ∧
    (∀ (magnets : List JavbusMagnetElem) (oc : Bool),
      (get_best_magnet_javbus magnets oc).1 = "" ∨
      ∃ e ∈ magnets, ∃ d, parse_magnet_element_javbus e = some d ∧
        (get_best_magnet_javbus magnets oc).1 = d.url ∧
        (get_best_magnet_javbus magnets oc).2.1 = roundTo2 (calculate_magnet_weight_javbus d) ∧
        (get_best_magnet_javbus magnets oc).2.2 = d.hasChineseSub) := by
  constructor
  · intro magnets oc
    simp only [get_best_magnet_javdb]
    rcases foldl_best_cases best_step_javdb parse_magnet_element_javdb
        calculate_magnet_weight_javdb best_step_javdb_cases
        (prefilter_magnets_javdb magnets oc) initBest with h | ⟨e, he, d, hd, hres⟩
    · rw [h]
      exact Or.inl rfl
    · rw [hres]
      exact Or.inr ⟨e, mem_prefilter_javdb he, d, hd, rfl, rfl, rfl⟩
  · intro magnets oc
    simp only [get_best_magnet_javbus]
    by_cases hm : magnets.isEmpty
    · rw [if_pos hm]
      exact Or.inl rfl
    · rw [if_neg hm]
      rcases foldl_best_cases best_step_javbus parse_magnet_element_javbus
          calculate_magnet_weight_javbus best_step_javbus_cases
          (prefilter_magnets_javbus magnets oc) initBest with h | ⟨e, he, d, hd, hres⟩
      · rw [h]
        exact Or.inl rfl
      · rw [hres]
        exact Or.inr ⟨e, mem_prefilter_javbus he, d, hd, rfl, rfl, rfl⟩

/-! ## Zero-weight scans -/

/-- On javdb, a scan step never replaces the incumbent when the parsed
weight does not exceed the running maximum; hence a whole scan of such
elements is the identity. -/
lemma foldl_javdb_no_gain :
    ∀ (l : List JavdbMagnetElem) (s : BestState),
      (∀ e ∈ l, ∀ d, parse_magnet_element_javdb e = some d →
        calculate_magnet_weight_javdb d ≤ s.maxWeight) →
      l.foldl best_step_javdb s = s
  | [], _, _ => rfl
  | e :: t, s, h => by
    have hstep : best_step_javdb s e = s := by
      unfold best_step_javdb
      cases hd : parse_magnet_element_javdb e with
      | none => rfl
      | some d =>
        have hle := h e (List.mem_cons_self e t) d hd
        simp [not_lt.mpr hle]
    rw [List.foldl_cons, hstep]
    exact foldl_javdb_no_gain t s
      (fun e' he' d hd => h e' (List.mem_cons_of_mem e he') d hd)

/-- On javbus, scanning a nonempty run of zero-weight parsable elements
from a zero running maximum ends on the data of the *last* element. -/
lemma foldl_javbus_zero_last :
    ∀ (l : List JavbusMagnetElem), l ≠ [] → ∀ (s : BestState), s.maxWeight = 0 →
      (∀ e ∈ l, ∃ d, parse_magnet_element_javbus e = some d ∧
        calculate_magnet_weight_javbus d = 0) →
      ∃ e' d, l.getLast? = some e' ∧ parse_magnet_element_javbus e' = some d ∧
        l.foldl best_step_javbus s = ⟨d.url, 0, d.hasChineseSub⟩
  | [], h, _, _, _ => absurd rfl h
  | [a], _, s, hs, hall => by
    obtain ⟨d, hd, hw⟩ := hall a (List.mem_singleton.mpr rfl)
    refine ⟨a, d, rfl, hd, ?_⟩
    have hstep : best_step_javbus s a = ⟨d.url, calculate_magnet_weight_javbus d, d.hasChineseSub⟩ := by
      unfold best_step_javbus
      rw [hd]
      simp [hs, hw]
    rw [show [a].foldl best_step_javbus s = best_step_javbus s a from rfl, hstep, hw]
  | a :: b :: t, _, s, hs, hall => by
    obtain ⟨d, hd, hw⟩ := hall a (List.mem_cons_self a (b :: t))
    have hstep : best_step_javbus s a = ⟨d.url, calculate_magnet_weight_javbus d, d.hasChineseSub⟩ := by
      unfold best_step_javbus
      rw [hd]
      simp [hs, hw]
    obtain ⟨e', d', hl, hd', hres⟩ :=
      foldl_javbus_zero_last (b :: t) (List.cons_ne_nil b t)
        ⟨d.url, calculate_magnet_weight_javbus d, d.hasChineseSub⟩ (by simp [hw])
        (fun e he => hall e (List.mem_cons_of_mem a he))
    refine ⟨e', d', ?_, hd', ?_⟩
    · rw [List.getLast?_cons_cons]
      exact hl
    · rw [List.foldl_cons, hstep]
      exact hres

lemma any_chinese_false {l : List String}
    (h : l.any (fun t => strContains t "中字" || strContains t "字幕") = false) :
    l.any (fun t => strContains t "字幕") = false := by
  rw [List.any_eq_false] at h ⊢
  intro x hx
  have := h x hx
  simp only [Bool.or_eq_true, not_or] at this
  exact this.2

/-- C10.  Zero-weight edge case: when every candidate parses with size 0
and no subtitle tag, javdb's strict `>` against the initial maximum 0
never selects anything (empty best URL), while javbus's `>=` selects the
last such candidate. -/
theorem zero_weight_edge :
    (∀ magnets : List JavdbMagnetElem,
      (∀ e ∈ magnets, ∃ d, parse_magnet_element_javdb e = some d ∧ d.size = 0 ∧
        d.tags.any (fun t => strContains t "字幕") = false) →
      get_best_magnet_javdb magnets false = ("", 0, false)) ∧
    (∀ magnets : List JavbusMagnetElem, magnets ≠ [] →
      (∀ e ∈ magnets, ∃ d, parse_magnet_element_javbus e = some d ∧ d.size = 0 ∧
        d.tags.any (fun t => strContains t "中字" || strContains t "字幕") = false) →
      ∃ e' d, magnets.getLast? = some e' ∧ parse_magnet_element_javbus e' = some d ∧
        get_best_magnet_javbus magnets false = (d.url, 0, false)) := by
  constructor
  · intro magnets hall
    have hfold : magnets.foldl best_step_javdb initBest = initBest := by
      apply foldl_javdb_no_gain
      intro e he d hd
      obtain ⟨d0, hd0, hsz, htag⟩ := hall e he
      rw [hd0] at hd
      obtain rfl := Option.some.inj hd
      simp [calculate_magnet_weight_javdb, hsz, htag, initBest]
    simp only [get_best_magnet_javdb]
    rw [show prefilter_magnets_javdb magnets false = magnets from rfl, hfold]
    simp [initBest, roundTo2_zero]
  · intro magnets hne hall
    obtain ⟨e', d, hl, hd, hres⟩ :=
      foldl_javbus_zero_last magnets hne initBest rfl
        (by
          intro e he
          obtain ⟨d0, hd0, hsz, htag⟩ := hall e he
          exact ⟨d0, hd0, by
            simp [calculate_magnet_weight_javdb, calculate_magnet_weight_javbus, hsz,
              any_chinese_false htag]⟩)
    have hmem : e' ∈ magnets := by
      obtain ⟨hne2, heq⟩ := List.mem_getLast?_eq_getLast (Option.mem_def.mpr hl)
      rw [heq]
      exact List.getLast_mem hne2
    have hcn : d.hasChineseSub = false := by
      obtain ⟨d0, hd0, hsz, htag⟩ := hall e' hmem
      rw [hd0] at hd
      obtain rfl := Option.some.inj hd
      rw [(parse_javbus_spec e' d0 hd0).2.1, htag]
    refine ⟨e', d, hl, hd, ?_⟩
    simp only [get_best_magnet_javbus]
    rw [if_neg (by simp [hne]),
      show prefilter_magnets_javbus magnets false = magnets from rfl, hres]
    simp [roundTo2_zero, hcn]

/-! ## C1: tie-break rules are the opposite of the claim -/

/-- C1 counterexample.  Two valid equal-weight candidates (size 0, no
tags): under the claim, javdb's alleged greater-or-equal rule would
select the second candidate, but javdb's actual strict `>` against the
initial maximum 0 selects nothing; and javbus's alleged strict rule
would select nothing, but its actual `>=` selects the last candidate. -/
theorem tie_break_counterexample :
    (get_best_magnet_javdb
      [⟨some "magnet:?xt=c", none, "", [], false⟩,
       ⟨some "magnet:?xt=d", none, "", [], false⟩] false).1 = "" ∧
    (get_best_magnet_javdb
      [⟨some "magnet:?xt=c", none, "", [], false⟩,
       ⟨some "magnet:?xt=d", none, "", [], false⟩] false).1 ≠ "magnet:?xt=d" ∧
    (get_best_magnet_javbus
      [⟨some "magnet:?xt=c", [], [], []⟩,
       ⟨some "magnet:?xt=d", [], [], []⟩] false).1 = "magnet:?xt=d" ∧
    (get_best_magnet_javbus
      [⟨some "magnet:?xt=c", [], [], []⟩,
       ⟨some "magnet:?xt=d", [], [], []⟩] false).1 ≠ "" := by
  have hdb : (get_best_magnet_javdb
      [⟨some "magnet:?xt=c", none, "", [], false⟩,
       ⟨some "magnet:?xt=d", none, "", [], false⟩] false).1 = "" := by
    have hfold : [(⟨some "magnet:?xt=c", none, "", [], false⟩ : JavdbMagnetElem),
        ⟨some "magnet:?xt=d", none, "", [], false⟩].foldl best_step_javdb initBest = initBest := by
      apply foldl_javdb_no_gain
      intro e he d hd
      rcases List.mem_cons.mp he with rfl | he2
      · rw [show parse_magnet_element_javdb ⟨some "magnet:?xt=c", none, "", [], false⟩ =
            some ⟨"magnet:?xt=c", 0, [], "", false⟩ from rfl] at hd
        obtain rfl := Option.some.inj hd
        simp [calculate_magnet_weight_javdb, initBest]
      · rw [List.mem_singleton] at he2
        subst he2
        rw [show parse_magnet_element_javdb ⟨some "magnet:?xt=d", none, "", [], false⟩ =
            some ⟨"magnet:?xt=d", 0, [], "", false⟩ from rfl] at hd
        obtain rfl := Option.some.inj hd
        simp [calculate_magnet_weight_javdb, initBest]
    simp only [get_best_magnet_javdb]
    rw [show prefilter_magnets_javdb
        [⟨some "magnet:?xt=c", none, "", [], false⟩,
         ⟨some "magnet:?xt=d", none, "", [], false⟩] false =
        [⟨some "magnet:?xt=c", none, "", [], false⟩,
         ⟨some "magnet:?xt=d", none, "", [], false⟩] from rfl, hfold]
    rfl
  have hbus : (get_best_magnet_javbus
      [⟨some "magnet:?xt=c", [], [], []⟩,
       ⟨some "magnet:?xt=d", [], [], []⟩] false).1 = "magnet:?xt=d" := by
    obtain ⟨e', d, hl, hd, hres⟩ :=
      foldl_javbus_zero_last
        [⟨some "magnet:?xt=c", [], [], []⟩, ⟨some "magnet:?xt=d", [], [], []⟩]
        (List.cons_ne_nil _ _) initBest rfl
        (by
          intro e he
          rcases List.mem_cons.mp he with rfl | he2
          · exact ⟨⟨"magnet:?xt=c", 0, [], "", false⟩, rfl,
              by simp [calculate_magnet_weight_javbus]⟩
          · rw [List.mem_singleton] at he2
            subst he2
            exact ⟨⟨"magnet:?xt=d", 0, [], "", false⟩, rfl,
              by simp [calculate_magnet_weight_javbus]⟩)
    have he' : e' = ⟨some "magnet:?xt=d", [], [], []⟩ := by
      rw [show ([⟨some "magnet:?xt=c", [], [], []⟩,
          ⟨some "magnet:?xt=d", [], [], []⟩] : List JavbusMagnetElem).getLast? =
          some ⟨some "magnet:?xt=d", [], [], []⟩ from rfl] at hl
      exact (Option.some.inj hl).symm
    subst he'
    rw [show parse_magnet_element_javbus ⟨some "magnet:?xt=d", [], [], []⟩ =
        some ⟨"magnet:?xt=d", 0, [], "", false⟩ from rfl] at hd
    obtain rfl := Option.some.inj hd
    simp only [get_best_magnet_javbus]
    rw [if_neg (by simp), show prefilter_magnets_javbus
        [⟨some "magnet:?xt=c", [], [], []⟩, ⟨some "magnet:?xt=d", [], [], []⟩] false =
        [⟨some "magnet:?xt=c", [], [], []⟩, ⟨some "magnet:?xt=d", [], [], []⟩] from rfl, hres]
  refine ⟨hdb, ?_, hbus, ?_⟩
  · rw [hdb]
    decide
  · rw [hbus]
    decide

/-- C1 (amended).  Tie-break on equal candidate weights is per-source,
with the rules swapped relative to the claim: javdb's `get_best_magnet`
uses strict greater-than, so a later candidate whose weight equals the
running maximum never replaces the incumbent (first equal-weight
candidate wins), while javbus's `get_best_magnet` uses
greater-or-equal, so a later equal-weight candidate always replaces the
incumbent (last equal-weight candidate wins). -/
theorem tie_break_per_source :
    (∀ (s : BestState) (e : JavdbMagnetElem) (d : MagnetData),
      parse_magnet_element_javdb e = some d →
      calculate_magnet_weight_javdb d = s.maxWeight →
      best_step_javdb s e = s) ∧
    (∀ (s : BestState) (e : JavbusMagnetElem) (d : MagnetData),
      parse_magnet_element_javbus e = some d →
      calculate_magnet_weight_javbus d = s.maxWeight →
      best_step_javbus s e = ⟨d.url, calculate_magnet_weight_javbus d, d.hasChineseSub⟩) := by
  constructor
  · intro s e d hd hw
    unfold best_step_javdb
    rw [hd]
    simp [hw]
  · intro s e d hd hw
    unfold best_step_javbus
    rw [hd]
    simp [hw]

theorem tie_break_per_source_witness :
    best_step_javdb ⟨"magnet:?xt=a", 0, false⟩ ⟨some "magnet:?xt=b", none, "", [], false⟩ =
      ⟨"magnet:?xt=a", 0, false⟩ ∧
    best_step_javbus ⟨"magnet:?xt=a", 0, false⟩ ⟨some "magnet:?xt=b", [], [], []⟩ =
      ⟨"magnet:?xt=b",
        calculate_magnet_weight_javbus ⟨"magnet:?xt=b", 0, [], "", false⟩, false⟩ :=
  ⟨tie_break_per_source.1 _ _ ⟨"magnet:?xt=b", 0, [], "", false⟩ rfl
      (by simp [calculate_magnet_weight_javdb]),
   tie_break_per_source.2 _ _ ⟨"magnet:?xt=b", 0, [], "", false⟩ rfl
      (by simp [calculate_magnet_weight_javbus])⟩

theorem zero_weight_edge_witness :
    get_best_magnet_javdb [⟨some "magnet:?xt=a", none, "", [], false⟩] false = ("", 0, false) ∧
    get_best_magnet_javbus
      [⟨some "magnet:?xt=a", [], [], []⟩, ⟨some "magnet:?xt=b", [], [], []⟩] false =
      ("magnet:?xt=b", 0, false) := by
  constructor
  · exact zero_weight_edge.1 _ (by
      intro e he
      rw [List.mem_singleton] at he
      subst he
      exact ⟨⟨"magnet:?xt=a", 0, [], "", false⟩, rfl, rfl, rfl⟩)
  · obtain ⟨e', d, hl, hd, hres⟩ := zero_weight_edge.2
      [⟨some "magnet:?xt=a", [], [], []⟩, ⟨some "magnet:?xt=b", [], [], []⟩]
      (List.cons_ne_nil _ _)
      (by
        intro e he
        rcases List.mem_cons.mp he with rfl | he2
        · exact ⟨⟨"magnet:?xt=a", 0, [], "", false⟩, rfl, rfl, rfl⟩
        · rw [List.mem_singleton] at he2
          subst he2
          exact ⟨⟨"magnet:?xt=b", 0, [], "", false⟩, rfl, rfl, rfl⟩)
    have he' : e' = ⟨some "magnet:?xt=b", [], [], []⟩ := by
      rw [show ([⟨some "magnet:?xt=a", [], [], []⟩,
          ⟨some "magnet:?xt=b", [], [], []⟩] : List JavbusMagnetElem).getLast? =
          some ⟨some "magnet:?xt=b", [], [], []⟩ from rfl] at hl
      exact (Option.some.inj hl).symm
    subst he'
    rw [show parse_magnet_element_javbus ⟨some "magnet:?xt=b", [], [], []⟩ =
        some ⟨"magnet:?xt=b", 0, [], "", false⟩ from rfl] at hd
    obtain rfl := Option.some.inj hd
    exact hres

/-! ## C4: prefilter fallback -/

/-- C4.  Language prefilter fallback: with the preference disabled both
prefilters pass the list through unchanged, and when the language filter
matches nothing both prefilters fall back to the full unfiltered list,
so the scorer behaves as if the preference were off. -/
theorem prefilter_fallback :
    (∀ magnets : List JavdbMagnetElem,
      prefilter_magnets_javdb magnets false = magnets ∧
      (magnets.filter (·.hasWarningTag) = [] →
        prefilter_magnets_javdb magnets true = magnets ∧
        get_best_magnet_javdb magnets true = get_best_magnet_javdb magnets false)) ∧
    (∀ magnets : List JavbusMagnetElem,
      prefilter_magnets_javbus magnets false = magnets ∧
      (magnets.filter javbusAttrChinese = [] →
        prefilter_magnets_javbus magnets true = magnets ∧
        get_best_magnet_javbus magnets true = get_best_magnet_javbus magnets false)) := by
  constructor
  · intro magnets
    refine ⟨rfl, fun hf => ⟨?_, ?_⟩⟩
    · simp [prefilter_magnets_javdb, hf]
    · simp [get_best_magnet_javdb, prefilter_magnets_javdb, hf]
  · intro magnets
    refine ⟨rfl, fun hf => ⟨?_, ?_⟩⟩
    · simp [prefilter_magnets_javbus, hf]
    · simp [get_best_magnet_javbus, prefilter_magnets_javbus, hf]

theorem prefilter_fallback_witness :
    prefilter_magnets_javdb [⟨none, some "magnet:?xt=a", "", [], false⟩] true =
      [⟨none, some "magnet:?xt=a", "", [], false⟩] ∧
    get_best_magnet_javdb [⟨none, some "magnet:?xt=a", "", [], false⟩] true =
      get_best_magnet_javdb [⟨none, some "magnet:?xt=a", "", [], false⟩] false ∧
    prefilter_magnets_javbus [⟨some "magnet:?xt=a", [], [], []⟩] true =
      [⟨some "magnet:?xt=a", [], [], []⟩] ∧
    get_best_magnet_javbus [⟨some "magnet:?xt=a", [], [], []⟩] true =
      get_best_magnet_javbus [⟨some "magnet:?xt=a", [], [], []⟩] false :=
  ⟨((prefilter_fallback.1 [⟨none, some "magnet:?xt=a", "", [], false⟩]).2 rfl).1,
   ((prefilter_fallback.1 [⟨none, some "magnet:?xt=a", "", [], false⟩]).2 rfl).2,
   ((prefilter_fallback.2 [⟨some "magnet:?xt=a", [], [], []⟩]).2 rfl).1,
   ((prefilter_fallback.2 [⟨some "magnet:?xt=a", [], [], []⟩]).2 rfl).2⟩

/-! ## C3: boost dominance -/

lemma calc_javdb_ge_boost (d : MagnetData) (h0 : 0 ≤ d.size)
    (ht : d.tags.any (fun t => strContains t "字幕") = true) :
    (10000 : ℚ) ≤ calculate_magnet_weight_javdb d := by
  simp only [calculate_magnet_weight_javdb, ht, if_pos]
  linarith

lemma calc_javdb_lt_boost (d : MagnetData) (hs : d.size < 10000)
    (ht : d.tags.any (fun t => strContains t "字幕") = false) :
    calculate_magnet_weight_javdb d < 10000 := by
  simp only [calculate_magnet_weight_javdb, ht]
  simp
  linarith

lemma calc_javbus_ge_boost (d : MagnetData) (h0 : 0 ≤ d.size)
    (ht : d.tags.any (fun t => strContains t "字幕") = true) :
    (10000 : ℚ) ≤ calculate_magnet_weight_javbus d := by
  simp only [calculate_magnet_weight_javbus, ht, if_pos]
  linarith

lemma calc_javbus_lt_boost (d : MagnetData) (hs : d.size < 10000)
    (ht : d.tags.any (fun t => strContains t "字幕") = false) :
    calculate_magnet_weight_javbus d < 10000 := by
  simp only [calculate_magnet_weight_javbus, ht]
  simp
  linarith

lemma any_sub_to_chinese {l : List String}
    (h : l.any (fun t => strContains t "字幕") = true) :
    l.any (fun t => strContains t "中字" || strContains t "字幕") = true := by
  rw [List.any_eq_true] at h ⊢
  obtain ⟨t, ht, hp⟩ := h
  exact ⟨t, ht, by simp [hp]⟩

/-- C3.  Boost dominance: with the language preference on, whenever some
candidate carries a subtitle tag (and, as on real pages, javdb's
`.is-warning` prefilter marker implies a subtitle tag text, javbus rows
have no `tags` HTML attribute, candidates parse, and every size is below
the 10000-unit boost), the selected candidate carries the subtitle
tag and the returned flag is true. -/
theorem boost_dominance :
    (∀ magnets : List JavdbMagnetElem,
      (∀ e ∈ magnets, ∃ d, parse_magnet_element_javdb e = some d ∧ d.size < 10000) →
      (∀ e ∈ magnets, e.hasWarningTag = true →
        e.tagTexts.any (fun t => strContains t "字幕") = true) →
      (∃ e ∈ magnets, ∃ d, parse_magnet_element_javdb e = some d ∧
        d.tags.any (fun t => strContains t "字幕") = true) →
      (get_best_magnet_javdb magnets true).2.2 = true ∧
      ∃ e ∈ magnets, ∃ d, parse_magnet_element_javdb e = some d ∧
        (get_best_magnet_javdb magnets true).1 = d.url ∧
        d.tags.any (fun t => strContains t "字幕") = true) ∧
    (∀ magnets : List JavbusMagnetElem,
      (∀ e ∈ magnets, ∃ d, parse_magnet_element_javbus e = some d ∧ d.size < 10000) →
      (∀ e ∈ magnets, e.attrTags = []) →
      (∃ e ∈ magnets, ∃ d, parse_magnet_element_javbus e = some d ∧
        d.tags.any (fun t => strContains t "字幕") = true) →
      (get_best_magnet_javbus magnets true).2.2 = true ∧
      ∃ e ∈ magnets, ∃ d, parse_magnet_element_javbus e = some d ∧
        (get_best_magnet_javbus magnets true).1 = d.url ∧
        d.tags.any (fun t => strContains t "字幕") = true) := by
  constructor
  · intro magnets hvalid hwarn hex
    have hInF : ∃ e₀ ∈ prefilter_magnets_javdb magnets true, ∃ d₀,
        parse_magnet_element_javdb e₀ = some d₀ ∧
        (10000 : ℚ) ≤ calculate_magnet_weight_javdb d₀ := by
      by_cases hW : magnets.filter (·.hasWarningTag) = []
      · have hF : prefilter_magnets_javdb magnets true = magnets := by
          simp [prefilter_magnets_javdb, hW]
        obtain ⟨e0, he0, d0, hd0, ht0⟩ := hex
        exact ⟨e0, by rw [hF]; exact he0, d0, hd0,
          calc_javdb_ge_boost d0 (parse_javdb_spec _ _ hd0).2.2 ht0⟩
      · have hF : prefilter_magnets_javdb magnets true = magnets.filter (·.hasWarningTag) := by
          simp [prefilter_magnets_javdb, List.isEmpty_iff, hW]
        obtain ⟨e0, he0⟩ := List.exists_mem_of_ne_nil _ hW
        have hm : e0 ∈ magnets := (List.mem_filter.mp he0).1
        have hwt : e0.hasWarningTag = true := by
          simpa using (List.mem_filter.mp he0).2
        obtain ⟨d0, hd0, _⟩ := hvalid e0 hm
        have htag : d0.tags.any (fun t => strContains t "字幕") = true := by
          rw [(parse_javdb_spec _ _ hd0).1]
          exact hwarn e0 hm hwt
        exact ⟨e0, by rw [hF]; exact he0, d0, hd0,
          calc_javdb_ge_boost d0 (parse_javdb_spec _ _ hd0).2.2 htag⟩
    obtain ⟨e0, he0, d0, hd0, hge0⟩ := hInF
    have hmax : (10000 : ℚ) ≤
        ((prefilter_magnets_javdb magnets true).foldl best_step_javdb initBest).maxWeight :=
      le_trans hge0 (foldl_max_ge best_step_javdb parse_magnet_element_javdb
        calculate_magnet_weight_javdb best_step_javdb_mono best_step_javdb_ge
        _ initBest e0 he0 d0 hd0)
    rcases foldl_best_cases best_step_javdb parse_magnet_element_javdb
        calculate_magnet_weight_javdb best_step_javdb_cases
        (prefilter_magnets_javdb magnets true) initBest with hid | ⟨e, he, d, hd, hres⟩
    · rw [hid] at hmax
      norm_num [initBest] at hmax
    · have hwle : (10000 : ℚ) ≤ calculate_magnet_weight_javdb d := by
        rw [hres] at hmax
        exact hmax
      have htag : d.tags.any (fun t => strContains t "字幕") = true := by
        cases hb : d.tags.any (fun t => strContains t "字幕") with
        | true => rfl
        | false =>
          obtain ⟨d', hd', hs'⟩ := hvalid e (mem_prefilter_javdb he)
          rw [hd'] at hd
          obtain rfl := Option.some.inj hd
          have := calc_javdb_lt_boost d' hs' hb
          linarith
      constructor
      · show ((prefilter_magnets_javdb magnets true).foldl best_step_javdb
          initBest).hasChineseSub = true
        rw [hres]
        show d.hasChineseSub = true
        rw [(parse_javdb_spec _ _ hd).2.1]
        exact htag
      · refine ⟨e, mem_prefilter_javdb he, d, hd, ?_, htag⟩
        show ((prefilter_magnets_javdb magnets true).foldl best_step_javdb
          initBest).best = d.url
        rw [hres]
  · intro magnets hvalid hattr hex
    have hne : magnets ≠ [] := by
      obtain ⟨e0, he0, _⟩ := hex
      exact List.ne_nil_of_mem he0
    have hF : prefilter_magnets_javbus magnets true = magnets := by
      have hf0 : magnets.filter javbusAttrChinese = [] :=
        List.filter_eq_nil_iff.mpr (fun e he => by simp [javbusAttrChinese, hattr e he])
      simp [prefilter_magnets_javbus, hf0]
    have hget : get_best_magnet_javbus magnets true =
        (let s := magnets.foldl best_step_javbus initBest
         (s.best, roundTo2 s.maxWeight, s.hasChineseSub)) := by
      simp only [get_best_magnet_javbus]
      rw [if_neg (by simp [hne]), hF]
    obtain ⟨e0, he0, d0, hd0, ht0⟩ := hex
    have hge0 : (10000 : ℚ) ≤ calculate_magnet_weight_javbus d0 :=
      calc_javbus_ge_boost d0 (parse_javbus_spec _ _ hd0).2.2 ht0
    have hmax : (10000 : ℚ) ≤ (magnets.foldl best_step_javbus initBest).maxWeight :=
      le_trans hge0 (foldl_max_ge best_step_javbus parse_magnet_element_javbus
        calculate_magnet_weight_javbus best_step_javbus_mono best_step_javbus_ge
        magnets initBest e0 he0 d0 hd0)
    rcases foldl_best_cases best_step_javbus parse_magnet_element_javbus
        calculate_magnet_weight_javbus best_step_javbus_cases
        magnets initBest with hid | ⟨e, he, d, hd, hres⟩
    · rw [hid] at hmax
      norm_num [initBest] at hmax
    · have hwle : (10000 : ℚ) ≤ calculate_magnet_weight_javbus d := by
        rw [hres] at hmax
        exact hmax
      have htag : d.tags.any (fun t => strContains t "字幕") = true := by
        cases hb : d.tags.any (fun t => strContains t "字幕") with
        | true => rfl
        | false =>
          obtain ⟨d', hd', hs'⟩ := hvalid e he
          rw [hd'] at hd
          obtain rfl := Option.some.inj hd
          have := calc_javbus_lt_boost d' hs' hb
          linarith
      constructor
      · rw [hget]
        show (magnets.foldl best_step_javbus initBest).hasChineseSub = true
        rw [hres]
        show d.hasChineseSub = true
        rw [(parse_javbus_spec _ _ hd).2.1]
        exact any_sub_to_chinese htag
      · refine ⟨e, he, d, hd, ?_, htag⟩
        rw [hget]
        show (magnets.foldl best_step_javbus initBest).best = d.url
        rw [hres]

theorem boost_dominance_witness :
    ((get_best_magnet_javdb
        [⟨some "magnet:?xt=a", none, "", [], false⟩,
         ⟨some "magnet:?xt=b", none, "", ["字幕"], true⟩] true).2.2 = true ∧
      ∃ e ∈ [(⟨some "magnet:?xt=a", none, "", [], false⟩ : JavdbMagnetElem),
         ⟨some "magnet:?xt=b", none, "", ["字幕"], true⟩],
        ∃ d, parse_magnet_element_javdb e = some d ∧
          (get_best_magnet_javdb
            [⟨some "magnet:?xt=a", none, "", [], false⟩,
             ⟨some "magnet:?xt=b", none, "", ["字幕"], true⟩] true).1 = d.url ∧
          d.tags.any (fun t => strContains t "字幕") = true) ∧
    ((get_best_magnet_javbus
        [⟨some "magnet:?xt=a", [], [], []⟩,
         ⟨some "magnet:?xt=b", [], ["字幕"], []⟩] true).2.2 = true ∧
      ∃ e ∈ [(⟨some "magnet:?xt=a", [], [], []⟩ : JavbusMagnetElem),
         ⟨some "magnet:?xt=b", [], ["字幕"], []⟩],
        ∃ d, parse_magnet_element_javbus e = some d ∧
          (get_best_magnet_javbus
            [⟨some "magnet:?xt=a", [], [], []⟩,
             ⟨some "magnet:?xt=b", [], ["字幕"], []⟩] true).1 = d.url ∧
          d.tags.any (fun t => strContains t "字幕") = true) := by
  constructor
  · apply boost_dominance.1
    · intro e he
      rcases List.mem_cons.mp he with rfl | he2
      · exact ⟨⟨"magnet:?xt=a", 0, [], "", false⟩, rfl, by norm_num⟩
      · rw [List.mem_singleton] at he2
        subst he2
        exact ⟨⟨"magnet:?xt=b", 0, ["字幕"], "", true⟩, rfl, by norm_num⟩
    · intro e he hwt
      rcases List.mem_cons.mp he with rfl | he2
      · exact absurd hwt (by decide)
      · rw [List.mem_singleton] at he2
        subst he2
        decide
    · exact ⟨⟨some "magnet:?xt=b", none, "", ["字幕"], true⟩, by simp,
        ⟨"magnet:?xt=b", 0, ["字幕"], "", true⟩, rfl, by decide⟩
  · apply boost_dominance.2
    · intro e he
      rcases List.mem_cons.mp he with rfl | he2
      · exact ⟨⟨"magnet:?xt=a", 0, [], "", false⟩, rfl, by norm_num⟩
      · rw [List.mem_singleton] at he2
        subst he2
        exact ⟨⟨"magnet:?xt=b", 0, ["字幕"], "", true⟩, rfl, by norm_num⟩
    · intro e he
      rcases List.mem_cons.mp he with rfl | he2
      · rfl
      · rw [List.mem_singleton] at he2
        subst he2
        rfl
    · exact ⟨⟨some "magnet:?xt=b", [], ["字幕"], []⟩, by simp,
        ⟨"magnet:?xt=b", 0, ["字幕"], "", true⟩, rfl, by decide⟩

/-! ## C2: duplicate-run early stop (`_is_duplicate_item`)

The spider state relevant to the duplicate check: the consecutive
duplicate counter and the stop flag.  `existing` abstracts whether the
MongoDB lookup found a stored record for the code with a non-null
magnet. -/

structure DupState where
  duplicate_count : ℕ
  stop_current_actor : Bool
deriving Repr, DecidableEq

/-- One call of `_is_duplicate_item` (identical in both spiders up to
`max_duplicates`): on a hit the counter increments and, when `is_skip`
is set and the counter reaches the limit, the stop flag is raised
(`CloseSpider`); on a miss the counter resets to zero. -/
def is_duplicate_step (max_duplicates : ℕ) (is_skip : Bool) (s : DupState)
    (existing : Bool) : DupState :=
  if existing then
    let c := s.duplicate_count + 1
    if is_skip && decide (max_duplicates ≤ c) then ⟨c, true⟩
    else ⟨c, s.stop_current_actor⟩
  else ⟨0, s.stop_current_actor⟩

/-- The list-traversal loop around `_is_duplicate_item`: once the stop
flag is set no further entries are processed (`parse_list` breaks and
issues no more requests). -/
def run_duplicates (max_duplicates : ℕ) (is_skip : Bool) :
    DupState → List Bool → DupState
  | s, [] => s
  | s, e :: rest =>
    if s.stop_current_actor then s
    else run_duplicates max_duplicates is_skip
      (is_duplicate_step max_duplicates is_skip s e) rest

/-- Number of list entries actually processed before the stop flag cuts
the traversal off. -/
def consumed_entries (max_duplicates : ℕ) (is_skip : Bool) :
    DupState → List Bool → ℕ
  | _, [] => 0
  | s, e :: rest =>
    if s.stop_current_actor then 0
    else 1 + consumed_entries max_duplicates is_skip
      (is_duplicate_step max_duplicates is_skip s e) rest

/-- `self.max_duplicates = 5` in `JavdbSpider.__init__`. -/
def javdb_max_duplicates : ℕ := 5

/-- `self.max_duplicates = 3` in `JavbusSpider.__init__`. -/
def javbus_max_duplicates : ℕ := 3

lemma run_duplicates_stopped (T : ℕ) (is_skip : Bool) (s : DupState)
    (hs : s.stop_current_actor = true) :
    ∀ l, run_duplicates T is_skip s l = s
  | [] => rfl
  | _ :: rest => by
    unfold run_duplicates
    rw [if_pos hs]

lemma run_duplicates_true_run (T : ℕ) :
    ∀ (n k : ℕ), k < T →
      (run_duplicates T true ⟨k, false⟩ (List.replicate n true)).stop_current_actor =
        decide (T ≤ k + n)
  | 0, k, hk => by
    simp [run_duplicates, Nat.not_le_of_lt hk]
  | n + 1, k, hk => by
    rw [List.replicate_succ]
    unfold run_duplicates
    rw [if_neg (by simp)]
    by_cases hT : T ≤ k + 1
    · have hstep : is_duplicate_step T true ⟨k, false⟩ true = ⟨k + 1, true⟩ := by
        simp [is_duplicate_step, hT]
      rw [hstep, run_duplicates_stopped T true _ rfl]
      simp
      omega
    · have hstep : is_duplicate_step T true ⟨k, false⟩ true = ⟨k + 1, false⟩ := by
        simp [is_duplicate_step, hT]
      rw [hstep, run_duplicates_true_run T n (k + 1) (by omega)]
      rw [decide_eq_decide]
      omega

lemma consumed_entries_true_run (T : ℕ) :
    ∀ (n k : ℕ), k < T →
      consumed_entries T true ⟨k, false⟩ (List.replicate n true) = min n (T - k)
  | 0, k, hk => by
    simp [consumed_entries]
  | n + 1, k, hk => by
    rw [List.replicate_succ]
    unfold consumed_entries
    rw [if_neg (by simp)]
    by_cases hT : T ≤ k + 1
    · have hstep : is_duplicate_step T true ⟨k, false⟩ true = ⟨k + 1, true⟩ := by
        simp [is_duplicate_step, hT]
      have hrest : consumed_entries T true ⟨k + 1, true⟩ (List.replicate n true) = 0 := by
        cases n with
        | zero => rfl
        | succ m =>
          rw [List.replicate_succ]
          unfold consumed_entries
          rw [if_pos rfl]
      rw [hstep, hrest]
      omega
    · have hstep : is_duplicate_step T true ⟨k, false⟩ true = ⟨k + 1, false⟩ := by
        simp [is_duplicate_step, hT]
      rw [hstep, consumed_entries_true_run T n (k + 1) (by omega)]
      omega

/-- C2.  Duplicate-run early stop: the counter increments by one on each
duplicate and resets to zero on each non-duplicate; with skip enabled a
run of n consecutive duplicates from a fresh state sets the stop flag
exactly when n reaches the per-source threshold (5 for javdb, 3 for
javbus), exactly min n T entries are processed, and once the flag is set
no further entries are processed at all. -/
theorem duplicate_run_early_stop :
    javdb_max_duplicates = 5 ∧ javbus_max_duplicates = 3 ∧
    (∀ (T : ℕ) (skip : Bool) (s : DupState),
      (is_duplicate_step T skip s true).duplicate_count = s.duplicate_count + 1 ∧
      is_duplicate_step T skip s false = ⟨0, s.stop_current_actor⟩) ∧
    (∀ n : ℕ,
      (run_duplicates javdb_max_duplicates true ⟨0, false⟩
        (List.replicate n true)).stop_current_actor = decide (5 ≤ n) ∧
      (run_duplicates javbus_max_duplicates true ⟨0, false⟩
        (List.replicate n true)).stop_current_actor = decide (3 ≤ n) ∧
      consumed_entries javdb_max_duplicates true ⟨0, false⟩ (List.replicate n true) = min n 5 ∧
      consumed_entries javbus_max_duplicates true ⟨0, false⟩ (List.replicate n true) = min n 3) ∧
    (∀ (T : ℕ) (skip : Bool) (s : DupState) (l : List Bool),
      s.stop_current_actor = true → run_duplicates T skip s l = s) := by
  refine ⟨rfl, rfl, ?_, ?_, ?_⟩
  · intro T skip s
    constructor
    · simp only [is_duplicate_step, if_pos]
      split
      · rfl
      · rfl
    · simp [is_duplicate_step]
  · intro n
    refine ⟨?_, ?_, ?_, ?_⟩
    · simpa using run_duplicates_true_run 5 n 0 (by omega)
    · simpa using run_duplicates_true_run 3 n 0 (by omega)
    · simpa using consumed_entries_true_run 5 n 0 (by omega)
    · simpa using consumed_entries_true_run 3 n 0 (by omega)
  · intro T skip s l hs
    exact run_duplicates_stopped T skip s hs l

theorem duplicate_run_early_stop_witness :
    (is_duplicate_step 5 true ⟨2, false⟩ true).duplicate_count = 3 ∧
    is_duplicate_step 5 true ⟨2, false⟩ false = ⟨0, false⟩ ∧
    run_duplicates 3 true ⟨1, true⟩ [true, true] = ⟨1, true⟩ :=
  ⟨((duplicate_run_early_stop.2.2.1 5 true ⟨2, false⟩).1 : _),
   ((duplicate_run_early_stop.2.2.1 5 true ⟨2, false⟩).2 : _),
   duplicate_run_early_stop.2.2.2.2 3 true ⟨1, true⟩ [true, true] rfl⟩

/-! ## C6/C7: record assembly and the no-link path

`DetailData` holds the `_parse_basic_info` fields read by
`_build_final_item` (javbus additionally extracts `code`/`title`, which
travel separately through `response.meta`). -/

structure DetailData where
  release_date : String := ""
  duration : ℕ := 0
  director : String := ""
  maker : String := ""
  series : String := ""
  rating : ℚ := 0
  tags : List String := []
  actors : List String := []
deriving Repr, DecidableEq

/-- The dict built by `JavdbSpider._build_final_item`. -/
structure JavdbItem where
  name : String
  title : String
  code : String
  magnet : String
  size : ℚ
  release_date : String
  director : String
  maker : String
  series : String
  rating : ℚ
  tags : List String
  actors : List String
deriving Repr, DecidableEq

/-- The dict built by `JavbusSpider._build_final_item` (no rating). -/
structure JavbusItem where
  name : String
  title : String
  code : String
  magnet : String
  size : ℚ
  release_date : String
  director : String
  maker : String
  series : String
  tags : List String
  actors : List String
deriving Repr, DecidableEq

/-- `JavdbSpider._build_final_item`:  appends the synthetic tag
`"中文字幕"` when the selected link has a subtitle tag and the *string*
`"字幕"` is not literally an element of the extracted tag list. -/
def build_final_item_javdb (task_name title code best_magnet : String)
    (max_size : ℚ) (has_chinese_sub : Bool) (detail : DetailData) : JavdbItem :=
  let tags := if has_chinese_sub && !detail.tags.contains "字幕"
    then detail.tags ++ ["中文字幕"] else detail.tags
  { name := task_name, title := title, code := code, magnet := best_magnet,
    size := max_size, release_date := detail.release_date,
    director := detail.director, maker := detail.maker, series := detail.series,
    rating := detail.rating, tags := tags, actors := detail.actors }

/-- `JavbusSpider._build_final_item` (same tag rule, no rating field). -/
def build_final_item_javbus (task_name title code best_magnet : String)
    (max_size : ℚ) (has_chinese_sub : Bool) (detail : DetailData) : JavbusItem :=
  let tags := if has_chinese_sub && !detail.tags.contains "字幕"
    then detail.tags ++ ["中文字幕"] else detail.tags
  { name := task_name, title := title, code := code, magnet := best_magnet,
    size := max_size, release_date := detail.release_date,
    director := detail.director, maker := detail.maker, series := detail.series,
    tags := tags, actors := detail.actors }

/-- The `JavdbSpider` run state its callbacks mutate (`__init__`): the
spider keeps no success/failure tally of any kind. -/
structure JavdbRunState where
  duplicate_count : ℕ
  max_duplicates : ℕ
  stop_current_actor : Bool
deriving Repr, DecidableEq

/-- An entry of `JavbusSpider.failed_items` (`url = none` models an
entry built without a `"url"` key). -/
structure FailedItem where
  task : String
  code : String
  url : Option String
  reason : String
deriving Repr, DecidableEq

/-- The `JavbusSpider` tally counters (`__init__`). -/
structure JavbusCounters where
  total_count : ℕ
  success_count : ℕ
  fail_count : ℕ
  chinese_count : ℕ
  failed_items : List FailedItem
deriving Repr, DecidableEq

/-- The record-emission tail of `JavdbSpider.parse_detail`: scores the
detail page's magnet elements and either drops the entry (empty best
URL: only a log line, the state is untouched) or emits the final item. -/
def parse_detail_javdb (st : JavdbRunState) (task_name title code : String)
    (only_chinese : Bool) (detail : DetailData) (magnets : List JavdbMagnetElem) :
    JavdbRunState × Option JavdbItem :=
  let r := get_best_magnet_javdb magnets only_chinese
  if r.1 = "" then (st, none)
  else (st, some (build_final_item_javdb task_name title code r.1 r.2.1 r.2.2 detail))

/-- `JavbusSpider.parse_magnet_ajax` after the AJAX fetch: on an empty
best URL it counts a failure and appends a `无可用磁力链接` entry to
`failed_items`; otherwise it counts a success (and a chinese-subtitle
hit when flagged) and emits the final item. -/
def parse_magnet_ajax_javbus (c : JavbusCounters) (task_name code title : String)
    (only_chinese : Bool) (detail : DetailData) (magnets : List JavbusMagnetElem) :
    JavbusCounters × Option JavbusItem :=
  let r := get_best_magnet_javbus magnets only_chinese
  if r.1 = "" then
    ({ c with
        fail_count := c.fail_count + 1
        failed_items := c.failed_items ++ [⟨task_name, code, none, "无可用磁力链接"⟩] },
     none)
  else
    ({ c with
        success_count := c.success_count + 1
        chinese_count := c.chinese_count + (if r.2.2 then 1 else 0) },
     some (build_final_item_javbus task_name title code r.1 r.2.1 r.2.2 detail))

/-- C6 counterexample.  A javdb detail page without magnet links: the
entry is dropped (no item emitted) but the spider state is completely
unchanged — the javdb spider has no failure tally to record the
"no usable link" reason in, contrary to the claim's "either source". -/
theorem no_link_tally_counterexample :
    parse_detail_javdb ⟨0, 5, false⟩ "t1" "title1" "CODE-1" false {} [] =
      (⟨0, 5, false⟩, none) ∧
    parse_magnet_ajax_javbus ⟨0, 0, 0, 0, []⟩ "t1" "CODE-1" "title1" false {} [] =
      (⟨0, 0, 1, 0, [⟨"t1", "CODE-1", none, "无可用磁力链接"⟩]⟩, none) :=
  ⟨rfl, rfl⟩

/-- C6 (amended).  When the scorer returns an empty best URL no record
is emitted on either source; the javbus spider additionally increments
`fail_count` and appends a `无可用磁力链接` ("no usable magnet link")
entry to `failed_items`, while the javdb spider merely logs the skip and
leaves its state unchanged — it maintains no failure tally. -/
theorem no_link_never_emitted :
    (∀ (st : JavdbRunState) (task_name title code : String) (oc : Bool)
       (detail : DetailData) (magnets : List JavdbMagnetElem),
      (get_best_magnet_javdb magnets oc).1 = "" →
      parse_detail_javdb st task_name title code oc detail magnets = (st, none)) ∧
    (∀ (c : JavbusCounters) (task_name code title : String) (oc : Bool)
       (detail : DetailData) (magnets : List JavbusMagnetElem),
      (get_best_magnet_javbus magnets oc).1 = "" →
      parse_magnet_ajax_javbus c task_name code title oc detail magnets =
        ({ c with
            fail_count := c.fail_count + 1
            failed_items := c.failed_items ++
              [⟨task_name, code, none, "无可用磁力链接"⟩] },
         none)) := by
  constructor
  · intro st task_name title code oc detail magnets h
    unfold parse_detail_javdb
    rw [if_pos h]
  · intro c task_name code title oc detail magnets h
    unfold parse_magnet_ajax_javbus
    rw [if_pos h]

theorem no_link_never_emitted_witness :
    parse_detail_javdb ⟨1, 5, false⟩ "t2" "title2" "CODE-2" false {} [] =
      (⟨1, 5, false⟩, none) ∧
    parse_magnet_ajax_javbus ⟨3, 2, 0, 1, []⟩ "t2" "CODE-2" "title2" false {} [] =
      (⟨3, 2, 1, 1, [⟨"t2", "CODE-2", none, "无可用磁力链接"⟩]⟩, none) :=
  ⟨no_link_never_emitted.1 ⟨1, 5, false⟩ "t2" "title2" "CODE-2" false {} [] rfl,
   no_link_never_emitted.2 ⟨3, 2, 0, 1, []⟩ "t2" "CODE-2" "title2" false {} [] rfl⟩

/-- C7 counterexample.  The guard checks for the literal string `"字幕"`
in the tag list, not for the synthetic tag `"中文字幕"`: with the
synthetic tag already literally present and the subtitle flag set, both
builders append a duplicate instead of keeping the list unchanged. -/
theorem synthetic_tag_counterexample :
    (build_final_item_javdb "n" "t" "c" "magnet:?xt=a" 0 true
      { tags := ["中文字幕"] }).tags = ["中文字幕", "中文字幕"] ∧
    (build_final_item_javdb "n" "t" "c" "magnet:?xt=a" 0 true
      { tags := ["中文字幕"] }).tags ≠ ["中文字幕"] ∧
    (build_final_item_javbus "n" "t" "c" "magnet:?xt=a" 0 true
      { tags := ["中文字幕"] }).tags = ["中文字幕", "中文字幕"] ∧
    (build_final_item_javbus "n" "t" "c" "magnet:?xt=a" 0 true
      { tags := ["中文字幕"] }).tags ≠ ["中文字幕"] :=
  ⟨rfl, by decide, rfl, by decide⟩

/-- C7 (amended).  The synthetic tag `"中文字幕"` is appended exactly
when the selected link has the subtitle property and the *string*
`"字幕"` (not the synthetic tag itself) is not literally an element of
the extracted tag list; otherwise the extracted tags are kept
unchanged. -/
theorem synthetic_tag_rule :
    ∀ (task_name title code best_magnet : String) (max_size : ℚ)
      (has_chinese_sub : Bool) (detail : DetailData),
      (has_chinese_sub = true → detail.tags.contains "字幕" = false →
        (build_final_item_javdb task_name title code best_magnet max_size
          has_chinese_sub detail).tags = detail.tags ++ ["中文字幕"] ∧
        (build_final_item_javbus task_name title code best_magnet max_size
          has_chinese_sub detail).tags = detail.tags ++ ["中文字幕"]) ∧
      (has_chinese_sub = false →
        (build_final_item_javdb task_name title code best_magnet max_size
          has_chinese_sub detail).tags = detail.tags ∧
        (build_final_item_javbus task_name title code best_magnet max_size
          has_chinese_sub detail).tags = detail.tags) ∧
      (detail.tags.contains "字幕" = true →
        (build_final_item_javdb task_name title code best_magnet max_size
          has_chinese_sub detail).tags = detail.tags ∧
        (build_final_item_javbus task_name title code best_magnet max_size
          has_chinese_sub detail).tags = detail.tags) := by
  intro task_name title code best_magnet max_size has_chinese_sub detail
  refine ⟨fun h1 h2 => ?_, fun h1 => ?_, fun h2 => ?_⟩
  · have h2' : "字幕" ∉ detail.tags := by simpa using h2
    constructor
    · simp [build_final_item_javdb, h1, h2']
    · simp [build_final_item_javbus, h1, h2']
  · constructor
    · simp [build_final_item_javdb, h1]
    · simp [build_final_item_javbus, h1]
  · have h2' : "字幕" ∈ detail.tags := by simpa using h2
    constructor
    · simp [build_final_item_javdb, h2']
    · simp [build_final_item_javbus, h2']

theorem synthetic_tag_rule_witness :
    ((build_final_item_javdb "n" "t" "c" "m" 0 true { tags := [] }).tags =
        [] ++ ["中文字幕"] ∧
      (build_final_item_javbus "n" "t" "c" "m" 0 true { tags := [] }).tags =
        [] ++ ["中文字幕"]) ∧
    ((build_final_item_javdb "n" "t" "c" "m" 0 false { tags := ["x"] }).tags = ["x"] ∧
      (build_final_item_javbus "n" "t" "c" "m" 0 false { tags := ["x"] }).tags = ["x"]) ∧
    ((build_final_item_javdb "n" "t" "c" "m" 0 true { tags := ["字幕"] }).tags = ["字幕"] ∧
      (build_final_item_javbus "n" "t" "c" "m" 0 true { tags := ["字幕"] }).tags = ["字幕"]) :=
  ⟨(synthetic_tag_rule "n" "t" "c" "m" 0 true { tags := [] }).1 rfl rfl,
   (synthetic_tag_rule "n" "t" "c" "m" 0 false { tags := ["x"] }).2.1 rfl,
   (synthetic_tag_rule "n" "t" "c" "m" 0 true { tags := ["字幕"] }).2.2 rfl⟩

/-! ## URL resolver (src/task/utils.py, src/task/manager.py)

Model of the parts of `urllib.parse` (CPython 3.11) the resolver uses.
`urlparse`/`urlunparse` only split the `;params` component off the path
and rejoin it verbatim, and `_merge_url_params` never touches the path,
so the pair is modelled losslessly at the `urlsplit`/`urlunsplit`
level.  `_check_bracketed_host` (IPv6 literal validation) and
`_checknetloc` (NFKC spoof check) are not modelled — they cannot fire
on the crawler's ASCII hostnames; the modelled `ValueError` is the
bracket-mismatch check, which feeds the `except` fallback of
`_merge_url_params`.  Percent-decoding is modelled at the byte level
(exact for ASCII). -/

def isC0OrSpace (c : Char) : Bool := c.toNat ≤ 0x20

def isTabCrLf (c : Char) : Bool := c = '\t' || c = '\r' || c = '\n'

def schemeChar (c : Char) : Bool :=
  c.isAlpha || c.isDigit || c == '+' || c == '-' || c == '.'

/-- The WHATWG sanitisation at the top of `urlsplit`: lstrip C0
controls and spaces, remove tab/CR/LF everywhere. -/
def sanitizeUrl (l : List Char) : List Char :=
  (l.dropWhile isC0OrSpace).filter (fun c => !isTabCrLf c)

structure SplitResult where
  scheme : List Char
  netloc : List Char
  path : List Char
  query : List Char
  fragment : List Char
deriving Repr, DecidableEq

/-- Split at the first occurrence of `sep` (`str.split(sep, 1)`),
`none` when absent. -/
def splitFirst (sep : Char) : List Char → Option (List Char × List Char)
  | [] => none
  | c :: t =>
    if c == sep then some ([], t)
    else (splitFirst sep t).map (fun p => (c :: p.1, p.2))

def toLowerL (l : List Char) : List Char := l.map Char.toLower

def notNetlocEnd (c : Char) : Bool := !(c == '/' || c == '?' || c == '#')

/-- `urllib.parse.urlsplit`; `none` models the bracket-mismatch
`ValueError` ("Invalid IPv6 URL"). -/
def urlsplit (url0 : List Char) : Option SplitResult :=
  let url1 := sanitizeUrl url0
  let sp :=
    match splitFirst ':' url1 with
    | some (pre, post) =>
      match pre with
      | [] => ([], url1)
      | c :: cs =>
        if c.isAlpha && (c :: cs).all schemeChar then (toLowerL (c :: cs), post)
        else ([], url1)
    | none => ([], url1)
  let nl :=
    if isPrefixB ['/', '/'] sp.2 then
      ((sp.2.drop 2).takeWhile notNetlocEnd, (sp.2.drop 2).dropWhile notNetlocEnd)
    else ([], sp.2)
  if (nl.1.contains '[' && !nl.1.contains ']') ||
      (nl.1.contains ']' && !nl.1.contains '[') then none
  else
    let fr :=
      match splitFirst '#' nl.2 with
      | some p => p
      | none => (nl.2, [])
    let pq :=
      match splitFirst '?' fr.1 with
      | some p => p
      | none => (fr.1, [])
    some ⟨sp.1, nl.1, pq.1, pq.2, fr.2⟩

/-- `urllib.parse.uses_netloc`. -/
def usesNetloc : List (List Char) :=
  [[], "ftp".toList, "http".toList, "gopher".toList, "nntp".toList,
   "telnet".toList, "imap".toList, "wais".toList, "file".toList,
   "mms".toList, "https".toList, "shttp".toList, "snews".toList,
   "prospero".toList, "rtsp".toList, "rtsps".toList, "rtspu".toList,
   "rsync".toList, "svn".toList, "svn+ssh".toList, "sftp".toList,
   "nfs".toList, "git".toList, "git+ssh".toList, "ws".toList, "wss".toList]

/-- The netloc/path recombination step of `urlunsplit` (CPython 3.11:
the `//` is restored for any scheme in `uses_netloc` even with an empty
netloc). -/
def unsplitPathPart (p : SplitResult) : List Char :=
  if p.netloc ≠ [] ∨
      (p.scheme ≠ [] ∧ p.scheme ∈ usesNetloc ∧ ¬ isPrefixB ['/', '/'] p.path = true) then
    '/' :: '/' :: (p.netloc ++
      (if p.path ≠ [] ∧ ¬ isPrefixB ['/'] p.path = true then '/' :: p.path else p.path))
  else p.path

/-- `urllib.parse.urlunsplit`. -/
def urlunsplit (p : SplitResult) : List Char :=
  let u2 := if p.scheme ≠ [] then p.scheme ++ ':' :: unsplitPathPart p else unsplitPathPart p
  let u3 := if p.query ≠ [] then u2 ++ '?' :: p.query else u2
  if p.fragment ≠ [] then u3 ++ '#' :: p.fragment else u3

def hexVal (c : Char) : Option ℕ :=
  if c.isDigit then some (c.toNat - 48)
  else if 'a' ≤ c ∧ c ≤ 'f' then some (c.toNat - 87)
  else if 'A' ≤ c ∧ c ≤ 'F' then some (c.toNat - 55)
  else none

/-- `str.replace('+', ' ')` as done by `parse_qsl` on names/values. -/
def plusToSpace (l : List Char) : List Char :=
  l.map (fun c => if c == '+' then ' ' else c)

/-- `urllib.parse.unquote` at the byte level: `%HH` decodes, anything
malformed is kept verbatim. -/
def unquoteL : List Char → List Char
  | [] => []
  | '%' :: h1 :: h2 :: t =>
    match hexVal h1, hexVal h2 with
    | some a, some b => Char.ofNat (16 * a + b) :: unquoteL t
    | _, _ => '%' :: unquoteL (h1 :: h2 :: t)
  | c :: t => c :: unquoteL t

/-- `str.split(sep)` (Python: splitting the empty string gives one
empty piece). -/
def splitOnChar (sep : Char) : List Char → List (List Char)
  | [] => [[]]
  | c :: t =>
    match splitOnChar sep t with
    | [] => [[]]
    | h :: r => if c == sep then [] :: h :: r else (c :: h) :: r

/-- `urllib.parse.parse_qsl` with default options: empty segments,
segments without `=`, and empty values are all dropped. -/
def parse_qsl (qs : List Char) : List (List Char × List Char) :=
  if qs = [] then []
  else
    (splitOnChar '&' qs).filterMap (fun seg =>
      if seg = [] then none
      else
        match splitFirst '=' seg with
        | none => none
        | some (n, v) =>
          if v = [] then none
          else some (unquoteL (plusToSpace n), unquoteL (plusToSpace v)))

/-- Insert one parsed pair into the ordered dict-of-lists. -/
def addQsVal (acc : List (List Char × List (List Char))) (k v : List Char) :
    List (List Char × List (List Char)) :=
  match acc with
  | [] => [(k, [v])]
  | (k', vs) :: t => if k' = k then (k', vs ++ [v]) :: t else (k', vs) :: addQsVal t k v

/-- `urllib.parse.parse_qs`. -/
def parse_qs (qs : List Char) : List (List Char × List (List Char)) :=
  (parse_qsl qs).foldl (fun acc p => addQsVal acc p.1 p.2) []

/-- A byte safe under `quote(safe='')`: ASCII alphanumerics and
`_.-~`. -/
def safeChar (c : Char) : Bool :=
  c.isAlpha || c.isDigit || c == '_' || c == '.' || c == '-' || c == '~'

def hexDigitU (n : ℕ) : Char :=
  if n < 10 then Char.ofNat (48 + n) else Char.ofNat (55 + n)

def utf8Bytes (n : ℕ) : List ℕ :=
  if n < 0x80 then [n]
  else if n < 0x800 then [0xC0 + n / 0x40, 0x80 + n % 0x40]
  else if n < 0x10000 then
    [0xE0 + n / 0x1000, 0x80 + n / 0x40 % 0x40, 0x80 + n % 0x40]
  else
    [0xF0 + n / 0x40000, 0x80 + n / 0x1000 % 0x40, 0x80 + n / 0x40 % 0x40,
     0x80 + n % 0x40]

/-- `urllib.parse.quote_plus` with `safe=''` (the `quote_via` used by
`urlencode`). -/
def quotePlusChar (c : Char) : List Char :=
  if safeChar c then [c]
  else if c == ' ' then ['+']
  else (utf8Bytes c.toNat).foldr
    (fun b acc => '%' :: hexDigitU (b / 16) :: hexDigitU (b % 16) :: acc) []

def quotePlus (l : List Char) : List Char :=
  l.foldr (fun c acc => quotePlusChar c ++ acc) []

/-- `urllib.parse.urlencode(..., doseq=True)` on the dict-of-lists. -/
def urlencode (params : List (List Char × List (List Char))) : List Char :=
  List.intercalate ['&']
    ((params.map (fun p => p.2.map (fun v => quotePlus p.1 ++ '=' :: quotePlus v))).flatten)

/-- `existing_params[key] = values` on the ordered dict: replace in
place, or append a new key at the end. -/
def setParam (ex : List (List Char × List (List Char))) (k : List Char)
    (vs : List (List Char)) : List (List Char × List (List Char)) :=
  match ex with
  | [] => [(k, vs)]
  | (k', vs') :: t => if k' = k then (k, vs) :: t else (k', vs') :: setParam t k vs

def hasParam (ex : List (List Char × List (List Char))) (k : List Char) : Bool :=
  ex.any (fun p => p.1 == k)

/-- The merge branch of `_merge_url_params`: append each new value not
already present to the key's list. -/
def appendParamVals (ex : List (List Char × List (List Char))) (k : List Char)
    (vs : List (List Char)) : List (List Char × List (List Char)) :=
  match ex with
  | [] => []
  | (k', vs') :: t =>
    if k' = k then
      (k', vs.foldl (fun cur v => if cur.contains v then cur else cur ++ [v]) vs') :: t
    else (k', vs') :: appendParamVals t k vs

/-- The parameter loop of `_merge_url_params`. -/
def apply_new_params (ex newParams : List (List Char × List (List Char)))
    (overwrite : Bool) : List (List Char × List (List Char)) :=
  newParams.foldl (fun ex p =>
    if overwrite || !hasParam ex p.1 then setParam ex p.1 p.2
    else appendParamVals ex p.1 p.2) ex

/-- `_merge_url_params`: on any exception (modelled: the `urlsplit`
`ValueError`) the base URL is returned unchanged. -/
def merge_url_params (base : List Char)
    (newParams : List (List Char × List (List Char))) (overwrite : Bool) : List Char :=
  match urlsplit base with
  | none => base
  | some p =>
    let merged := apply_new_params (parse_qs p.query) newParams overwrite
    urlunsplit { p with query := urlencode merged }

/-- The `known + extra` filter mapping, restricted to the keys the URL
builders read (`only_chinese`, `exclude_multi_person`). -/
structure FilterConf where
  only_chinese : Bool := false
  exclude_multi_person : Bool := false
deriving Repr, DecidableEq

/-- `_build_javdb_actor_url`. -/
def build_javdb_actor_url (base : List Char) (f : FilterConf) : List Char :=
  let t := [['d']] ++ (if f.exclude_multi_person then [['s']] else []) ++
    (if f.only_chinese then [['c']] else [])
  merge_url_params base [("sort_type".toList, [['0']]), (['t'], t)] false

/-- `_build_javdb_code_url`. -/
def build_javdb_code_url (base : List Char) (f : FilterConf) : List Char :=
  let fv := if f.only_chinese then "cnsub".toList else "download".toList
  merge_url_params base [("sort_type".toList, [['5']]), (['f'], [fv])] true

/-- `_build_javdb_other_url`. -/
def build_javdb_other_url (base : List Char) (f : FilterConf) : List Char :=
  let fv := if f.only_chinese then "cnsub".toList else "download".toList
  merge_url_params base [(['f'], [fv])] true

/-- `_build_javbus_url`: pass-through. -/
def build_javbus_url (base : List Char) : List Char := base

/-- `normalize_url`. -/
def normalize_url (url : List Char) : List Char :=
  if url = [] then []
  else
    let s := stripL url
    if isPrefixB "http://".toList s || isPrefixB "https://".toList s then s
    else "https://".toList ++ s

/-- `determine_source`. -/
def determine_source (url : List Char) : List Char :=
  if url = [] then "unknown".toList
  else
    let lower := toLowerL url
    if containsSeq lower "javdb.com".toList then "javdb".toList
    else if containsSeq lower "javbus.com".toList then "javbus".toList
    else
      match urlsplit url with
      | none => "unknown".toList
      | some p =>
        let domain := if isPrefixB "www.".toList p.netloc then p.netloc.drop 4 else p.netloc
        (splitOnChar '.' domain).headD []

/-- `build_final_url`. -/
def build_final_url (base_url url_type : List Char) (f : FilterConf)
    (source : List Char) : List Char :=
  let base := normalize_url base_url
  let src := if source = [] then "unknown".toList else toLowerL source
  let ut := if url_type = [] then "unknown".toList else toLowerL url_type
  if src = "javdb".toList then
    if ut = "actor".toList then build_javdb_actor_url base f
    else if ut = "code".toList then build_javdb_code_url base f
    else build_javdb_other_url base f
  else if src = "javbus".toList then build_javbus_url base
  else base

/-- `self.source or determine_source(self.url)` in
`Task.__post_init__`. -/
def task_source (source : Option (List Char)) (url : List Char) : List Char :=
  match source with
  | some s => if s = [] then determine_source url else s
  | none => determine_source url

/-- The `final_url` a `Task` derives at construction
(`Task._build_final_url`). -/
def task_final_url (url url_type : String) (f : FilterConf)
    (source : Option String) : String :=
  (build_final_url url.toList url_type.toList f
    (task_source (source.map String.toList) url.toList)).asString

/-! ## C8: the derived finalURL -/

lemma isPrefixB_self_append (p r : List Char) : isPrefixB p (p ++ r) = true := by
  induction p with
  | nil => rfl
  | cons a ps ih => simp [isPrefixB, ih]

lemma isPrefixB_append_of {p l : List Char} (m : List Char)
    (h : isPrefixB p l = true) : isPrefixB p (l ++ m) = true := by
  induction p generalizing l with
  | nil => rfl
  | cons a ps ih =>
    cases l with
    | nil => cases h
    | cons b ls =>
      simp only [isPrefixB, Bool.and_eq_true] at h
      simp only [List.cons_append, isPrefixB, Bool.and_eq_true]
      exact ⟨h.1, ih h.2⟩

lemma isPrefixB_exists_suffix {p l : List Char} (h : isPrefixB p l = true) :
    ∃ r, l = p ++ r := by
  induction p generalizing l with
  | nil => exact ⟨l, rfl⟩
  | cons a ps ih =>
    cases l with
    | nil => cases h
    | cons b ls =>
      simp only [isPrefixB, Bool.and_eq_true, beq_iff_eq] at h
      obtain ⟨r, hr⟩ := ih h.2
      exact ⟨r, by rw [List.cons_append, ← h.1, hr]⟩

lemma isPrefixB_append_both (s t l : List Char) :
    isPrefixB (s ++ t) (s ++ l) = isPrefixB t l := by
  induction s with
  | nil => rfl
  | cons a ss ih => simp [isPrefixB, ih]

lemma normalize_url_prefixed (url : List Char) (h : url ≠ []) :
    isPrefixB "http://".toList (normalize_url url) = true ∨
    isPrefixB "https://".toList (normalize_url url) = true := by
  unfold normalize_url
  rw [if_neg h]
  simp only []
  cases hab : (isPrefixB "http://".toList (stripL url) ||
      isPrefixB "https://".toList (stripL url)) with
  | true =>
    rw [if_pos rfl]
    rcases Bool.or_eq_true_iff.mp hab with h1 | h1
    · exact Or.inl h1
    · exact Or.inr h1
  | false =>
    rw [if_neg Bool.false_ne_true]
    exact Or.inr (isPrefixB_self_append _ _)

/-- `urlsplit` on an `https://`-prefixed URL, computed. -/
lemma urlsplit_https (r : List Char) :
    urlsplit ("https://".toList ++ r) =
      (let x := r.filter (fun c => !isTabCrLf c)
       let netloc := x.takeWhile notNetlocEnd
       let rest := x.dropWhile notNetlocEnd
       if (netloc.contains '[' && !netloc.contains ']') ||
           (netloc.contains ']' && !netloc.contains '[') then none
       else
         let fr :=
           match splitFirst '#' rest with
           | some p => p
           | none => (rest, [])
         let pq :=
           match splitFirst '?' fr.1 with
           | some p => p
           | none => (fr.1, [])
         some ⟨"https".toList, netloc, pq.1, pq.2, fr.2⟩) := rfl

/-- `urlsplit` on an `http://`-prefixed URL, computed. -/
lemma urlsplit_http (r : List Char) :
    urlsplit ("http://".toList ++ r) =
      (let x := r.filter (fun c => !isTabCrLf c)
       let netloc := x.takeWhile notNetlocEnd
       let rest := x.dropWhile notNetlocEnd
       if (netloc.contains '[' && !netloc.contains ']') ||
           (netloc.contains ']' && !netloc.contains '[') then none
       else
         let fr :=
           match splitFirst '#' rest with
           | some p => p
           | none => (rest, [])
         let pq :=
           match splitFirst '?' fr.1 with
           | some p => p
           | none => (fr.1, [])
         some ⟨"http".toList, netloc, pq.1, pq.2, fr.2⟩) := rfl

lemma urlsplit_https_scheme (r : List Char) (p : SplitResult)
    (h : urlsplit ("https://".toList ++ r) = some p) : p.scheme = "https".toList := by
  rw [urlsplit_https] at h
  simp only [] at h
  split at h
  · cases h
  · obtain rfl := (Option.some.inj h).symm
    rfl

lemma urlsplit_http_scheme (r : List Char) (p : SplitResult)
    (h : urlsplit ("http://".toList ++ r) = some p) : p.scheme = "http".toList := by
  rw [urlsplit_http] at h
  simp only [] at h
  split at h
  · cases h
  · obtain rfl := (Option.some.inj h).symm
    rfl

lemma unsplitPathPart_prefixed (p : SplitResult) (hne : p.scheme ≠ [])
    (hs : p.scheme ∈ usesNetloc) :
    isPrefixB ['/', '/'] (unsplitPathPart p) = true := by
  unfold unsplitPathPart
  split
  · rfl
  · rename_i hcond
    push_neg at hcond
    exact hcond.2 hne hs

/-- `urlunsplit` restores `scheme://` for any nonempty scheme in
`uses_netloc`. -/
lemma urlunsplit_scheme_prefixed (p : SplitResult) (hne : p.scheme ≠ [])
    (hs : p.scheme ∈ usesNetloc) :
    isPrefixB (p.scheme ++ [':', '/', '/']) (urlunsplit p) = true := by
  have hu2 : isPrefixB (p.scheme ++ [':', '/', '/'])
      (p.scheme ++ ':' :: unsplitPathPart p) = true := by
    have h3 := isPrefixB_append_both (p.scheme ++ [':']) ['/', '/'] (unsplitPathPart p)
    rw [List.append_assoc] at h3
    rw [show ([':'] ++ ['/', '/'] : List Char) = [':', '/', '/'] from rfl] at h3
    rw [show (p.scheme ++ [':']) ++ unsplitPathPart p =
      p.scheme ++ ':' :: unsplitPathPart p from by simp] at h3
    rw [h3]
    exact unsplitPathPart_prefixed p hne hs
  unfold urlunsplit
  simp only [if_pos hne]
  split
  · split
    · exact isPrefixB_append_of _ (isPrefixB_append_of _ hu2)
    · exact isPrefixB_append_of _ hu2
  · split
    · exact isPrefixB_append_of _ hu2
    · exact hu2

lemma merge_url_params_prefixed_https (r : List Char)
    (np : List (List Char × List (List Char))) (ow : Bool) :
    isPrefixB "https://".toList (merge_url_params ("https://".toList ++ r) np ow) = true := by
  unfold merge_url_params
  cases h : urlsplit ("https://".toList ++ r) with
  | none => exact isPrefixB_self_append _ _
  | some p =>
    have hsch := urlsplit_https_scheme r p h
    have hne : p.scheme ≠ [] := by rw [hsch]; decide
    have hs2 : p.scheme ∈ usesNetloc := by rw [hsch]; decide
    have h2 : isPrefixB (p.scheme ++ [':', '/', '/'])
        (urlunsplit { p with query := urlencode (apply_new_params (parse_qs p.query) np ow) }) =
        true :=
      urlunsplit_scheme_prefixed
        { p with query := urlencode (apply_new_params (parse_qs p.query) np ow) } hne hs2
    have hpre : ("https://".toList : List Char) = p.scheme ++ [':', '/', '/'] := by
      rw [hsch]
      decide
    rw [hpre]
    dsimp only []
    exact h2

lemma merge_url_params_prefixed_http (r : List Char)
    (np : List (List Char × List (List Char))) (ow : Bool) :
    isPrefixB "http://".toList (merge_url_params ("http://".toList ++ r) np ow) = true := by
  unfold merge_url_params
  cases h : urlsplit ("http://".toList ++ r) with
  | none => exact isPrefixB_self_append _ _
  | some p =>
    have hsch := urlsplit_http_scheme r p h
    have hne : p.scheme ≠ [] := by rw [hsch]; decide
    have hs2 : p.scheme ∈ usesNetloc := by rw [hsch]; decide
    have h2 : isPrefixB (p.scheme ++ [':', '/', '/'])
        (urlunsplit { p with query := urlencode (apply_new_params (parse_qs p.query) np ow) }) =
        true :=
      urlunsplit_scheme_prefixed
        { p with query := urlencode (apply_new_params (parse_qs p.query) np ow) } hne hs2
    have hpre : ("http://".toList : List Char) = p.scheme ++ [':', '/', '/'] := by
      rw [hsch]
      decide
    rw [hpre]
    dsimp only []
    exact h2

lemma merge_url_params_prefixed (base : List Char)
    (np : List (List Char × List (List Char))) (ow : Bool)
    (h : isPrefixB "http://".toList base = true ∨ isPrefixB "https://".toList base = true) :
    isPrefixB "http://".toList (merge_url_params base np ow) = true ∨
    isPrefixB "https://".toList (merge_url_params base np ow) = true := by
  rcases h with hp | hp <;> obtain ⟨r, rfl⟩ := isPrefixB_exists_suffix hp
  · exact Or.inl (merge_url_params_prefixed_http r np ow)
  · exact Or.inr (merge_url_params_prefixed_https r np ow)

/-- Any route through `build_final_url` yields an `http://`- or
`https://`-prefixed URL once the base is nonempty. -/
lemma build_final_url_prefixed (base_url url_type : List Char) (f : FilterConf)
    (source : List Char) (h : base_url ≠ []) :
    isPrefixB "http://".toList (build_final_url base_url url_type f source) = true ∨
    isPrefixB "https://".toList (build_final_url base_url url_type f source) = true := by
  have hbase := normalize_url_prefixed base_url h
  have hform : build_final_url base_url url_type f source = normalize_url base_url ∨
      ∃ np ow, build_final_url base_url url_type f source =
        merge_url_params (normalize_url base_url) np ow := by
    unfold build_final_url
    simp only []
    by_cases h1 : (if source = [] then "unknown".toList else toLowerL source) = "javdb".toList
    · rw [if_pos h1]
      by_cases h2 : (if url_type = [] then "unknown".toList else toLowerL url_type) =
          "actor".toList
      · rw [if_pos h2]
        exact Or.inr ⟨_, _, rfl⟩
      · rw [if_neg h2]
        by_cases h3 : (if url_type = [] then "unknown".toList else toLowerL url_type) =
            "code".toList
        · rw [if_pos h3]
          exact Or.inr ⟨_, _, rfl⟩
        · rw [if_neg h3]
          exact Or.inr ⟨_, _, rfl⟩
    · rw [if_neg h1]
      by_cases h4 : (if source = [] then "unknown".toList else toLowerL source) =
          "javbus".toList
      · rw [if_pos h4]
        exact Or.inl rfl
      · rw [if_neg h4]
        exact Or.inl rfl
  rcases hform with he | ⟨np, ow, he⟩
  · rw [he]
    exact hbase
  · rw [he]
    exact merge_url_params_prefixed _ _ _ hbase

/-- C8 counterexample.  A Task built from an empty url: `normalize_url`
returns `""` unchanged (its falsy-input guard), so the derived finalURL
is `""` — not an absolute HTTP(S) URL. -/
theorem task_final_url_counterexample :
    task_final_url "" "code" {} none = "" ∧
    isPrefixB "http://".toList (task_final_url "" "code" {} none).toList = false ∧
    isPrefixB "https://".toList (task_final_url "" "code" {} none).toList = false :=
  ⟨rfl, rfl, rfl⟩

/-- C8 (amended).  For every Task whose url is a nonempty string the
derived finalURL starts with `http://` or `https://`, and if URL
resolution raises (the modelled `urlsplit` `ValueError`) the
`_merge_url_params` `except` branch returns the normalized base URL
unchanged — resolution never aborts task construction. -/
theorem task_final_url_absolute :
    (∀ (url url_type : String) (f : FilterConf) (source : Option String),
      url ≠ "" →
      isPrefixB "http://".toList (task_final_url url url_type f source).toList = true ∨
      isPrefixB "https://".toList (task_final_url url url_type f source).toList = true) ∧
    (∀ (base : List Char) (np : List (List Char × List (List Char))) (ow : Bool),
      urlsplit base = none → merge_url_params base np ow = base) := by
  constructor
  · intro url url_type f source hne
    have hnil : url.toList ≠ [] := by
      intro hn
      apply hne
      cases url with
      | mk d =>
        cases hn
        rfl
    exact build_final_url_prefixed url.toList url_type.toList f
      (task_source (source.map String.toList) url.toList) hnil
  · intro base np ow h
    unfold merge_url_params
    rw [h]

theorem task_final_url_absolute_witness :
    (isPrefixB "http://".toList (task_final_url "javdb.com/v/TEST" "code" {} none).toList = true ∨
     isPrefixB "https://".toList (task_final_url "javdb.com/v/TEST" "code" {} none).toList = true) ∧
    merge_url_params "https://[".toList [] true = "https://[".toList :=
  ⟨task_final_url_absolute.1 "javdb.com/v/TEST" "code" {} none (by decide),
   task_final_url_absolute.2 "https://[".toList [] true rfl⟩

/-! ## C9: the javdb "code" page URL -/

/-- Value of a key in the ordered query dict. -/
def lookupParam (l : List (List Char × List (List Char))) (k : List Char) :
    Option (List (List Char)) :=
  match l with
  | [] => none
  | (k', v) :: t => if k' = k then some v else lookupParam t k

lemma lookupParam_set_same (l : List (List Char × List (List Char)))
    (k : List Char) (vs : List (List Char)) :
    lookupParam (setParam l k vs) k = some vs := by
  induction l with
  | nil => simp [setParam, lookupParam]
  | cons p t ih =>
    obtain ⟨k', v'⟩ := p
    by_cases h : k' = k
    · simp [setParam, lookupParam, h]
    · simp [setParam, lookupParam, h, ih]

lemma lookupParam_set_other (l : List (List Char × List (List Char)))
    (k k' : List Char) (vs : List (List Char)) (h : k' ≠ k) :
    lookupParam (setParam l k vs) k' = lookupParam l k' := by
  have hk : ∀ {a b : List Char}, a ≠ b → ¬ b = a := fun hab hh => hab hh.symm
  induction l with
  | nil => simp [setParam, lookupParam, hk h]
  | cons p t ih =>
    obtain ⟨k0, v0⟩ := p
    by_cases h0 : k0 = k
    · subst h0
      simp [setParam, lookupParam, Ne.symm h]
    · simp only [setParam, lookupParam, if_neg h0]
      by_cases h1 : k0 = k'
      · simp [lookupParam, h1]
      · simp [lookupParam, h1, ih]

/-- C9.  Source javdb, page kind "code": the resolver *overwrites*
`sort_type=5` and a single-valued `f` equal to `cnsub` when the
language preference is set and `download` otherwise, regardless of any
existing query values; and the claim's end-to-end scenario resolves to
a URL containing `sort_type=5&f=cnsub`. -/
theorem javdb_code_url_overwrites :
    (∀ (ex : List (List Char × List (List Char))) (oc : Bool),
      lookupParam (apply_new_params ex
        [("sort_type".toList, [['5']]),
         (['f'], [if oc then "cnsub".toList else "download".toList])] true)
        "sort_type".toList = some [['5']] ∧
      lookupParam (apply_new_params ex
        [("sort_type".toList, [['5']]),
         (['f'], [if oc then "cnsub".toList else "download".toList])] true)
        ['f'] = some [if oc then "cnsub".toList else "download".toList]) ∧
    task_final_url "https://javdb.com/v/ABCDE" "code" { only_chinese := true } (some "javdb") =
      "https://javdb.com/v/ABCDE?sort_type=5&f=cnsub" ∧
    containsSeq "https://javdb.com/v/ABCDE?sort_type=5&f=cnsub".toList
      "sort_type=5&f=cnsub".toList = true := by
  refine ⟨?_, by decide, by decide⟩
  intro ex oc
  have hrw : apply_new_params ex
      [("sort_type".toList, [['5']]),
       (['f'], [if oc then "cnsub".toList else "download".toList])] true =
      setParam (setParam ex "sort_type".toList [['5']]) ['f']
        [if oc then "cnsub".toList else "download".toList] := rfl
  rw [hrw]
  constructor
  · rw [lookupParam_set_other _ _ _ _ (by decide)]
    exact lookupParam_set_same _ _ _
  · exact lookupParam_set_same _ _ _

end JavSpider
